import Mathlib

/-!
# Verification of the Shop Director docs screenshot-annotation pipeline

A shallow embedding of `scripts/capture-screenshots.ts`: the arrow-candidate
scorer, the spatial deduplication filter, the arrow-direction picker, the
filename generator, the markdown content patcher, and the exit-code /
result-accumulation logic of `main`.  Strings are modelled as `List Char`,
pixel coordinates (JS numbers from `boundingBox()`) as `ℚ`, and priorities
and arrow caps as `Int`.  Effectful steps (browser capture) are modelled by
an explicit per-directive outcome oracle.
-/

/-! ## Embedded definitions (from `scripts/capture-screenshots.ts`) -/

def str (s : String) : List Char := s.data

def startsWithChars : List Char → List Char → Bool
  | [], _ => true
  | _ :: _, [] => false
  | a :: as, b :: bs => a == b && startsWithChars as bs

def containsChars (needle : List Char) : List Char → Bool
  | [] => needle.isEmpty
  | c :: rest => startsWithChars needle (c :: rest) || containsChars needle rest

def lowerChars (l : List Char) : List Char := l.map Char.toLower

def trimChars (l : List Char) : List Char :=
  ((l.dropWhile (·.isWhitespace)).reverse.dropWhile (·.isWhitespace)).reverse

def splitChar (sep : Char) : List Char → List (List Char)
  | [] => [[]]
  | c :: cs =>
    let rest := splitChar sep cs
    if c = sep then [] :: rest else (c :: rest.headD []) :: rest.tail

def joinWith (sep : Char) : List (List Char) → List Char
  | [] => []
  | [l] => l
  | l :: ls => l ++ sep :: joinWith sep ls

def insertAt (n : Nat) (a : α) (l : List α) : List α :=
  l.take n ++ a :: l.drop n

structure ArrowTarget where
  x : ℚ
  y : ℚ
  width : ℚ
  height : ℚ
  selector : List Char
  priority : Int
  text : List Char
deriving DecidableEq

def DEFAULT_MAX_ARROWS : Int := 3

def PROXIMITY_PADDING : ℚ := 50

def effectiveMaxArrows (maxArrows : Option Int) : Int :=
  maxArrows.getD DEFAULT_MAX_ARROWS

def isInProximity (box1 box2 : ArrowTarget) : Bool :=
  let pad := PROXIMITY_PADDING
  let b1left := box1.x - pad
  let b1right := box1.x + box1.width + pad
  let b1top := box1.y - pad
  let b1bottom := box1.y + box1.height + pad
  let b2left := box2.x - pad
  let b2right := box2.x + box2.width + pad
  let b2top := box2.y - pad
  let b2bottom := box2.y + box2.height + pad
  !(decide (b1right < b2left) || decide (b1left > b2right) ||
    decide (b1bottom < b2top) || decide (b1top > b2bottom))

def targetLE (a b : ArrowTarget) : Bool :=
  if a.priority = b.priority then
    if a.y = b.y then decide (a.x ≤ b.x) else decide (a.y < b.y)
  else decide (b.priority < a.priority)

def insertSorted (a : ArrowTarget) : List ArrowTarget → List ArrowTarget
  | [] => [a]
  | b :: bs => if targetLE a b then a :: b :: bs else b :: insertSorted a bs

def sortTargets (l : List ArrowTarget) : List ArrowTarget :=
  l.foldr insertSorted []

structure FilterResult where
  selected : List ArrowTarget
  skipped : List (List Char)
deriving DecidableEq

def filterLoop (maxArrows : Int) :
    List ArrowTarget → List ArrowTarget → List (List Char) → FilterResult
  | [], selected, skipped => ⟨selected, skipped⟩
  | t :: rest, selected, skipped =>
    if maxArrows ≤ (selected.length : Int) then
      filterLoop maxArrows rest selected (skipped ++ [t.selector])
    else if selected.any (fun s => isInProximity s t) then
      filterLoop maxArrows rest selected (skipped ++ [t.selector])
    else
      filterLoop maxArrows rest (selected ++ [t]) skipped

def filterArrowTargets (targets : List ArrowTarget) (maxArrows : Int)
    (forceMinimum : Bool) : FilterResult :=
  if targets.isEmpty then ⟨[], []⟩
  else
    let sorted := sortTargets targets
    let r := filterLoop maxArrows sorted [] []
    if forceMinimum && r.selected.isEmpty && !sorted.isEmpty then
      match sorted with
      | [] => r
      | top :: _ => ⟨[top], r.skipped.erase top.selector⟩
    else r

def ctaWords : List (List Char) :=
  [str "create", str "save", str "submit", str "add", str "new",
   str "confirm", str "update", str "delete", str "remove"]

def ctaMatches (text : List Char) : Bool :=
  ctaWords.any (fun w => containsChars w (lowerChars text))

def scoreElement (selector text tagName ty : List Char) : Nat :=
  let score0 : Nat := 0
  let score1 :=
    if containsChars (str ".btn-primary") selector
        || containsChars (str "btn-primary") selector
    then score0 + 100 else score0
  let score2 := if ty = str "submit" then score1 + 90 else score1
  let score3 :=
    if tagName = str "BUTTON" ∨ tagName = str "A" then score2 + 20 else score2
  let score4 := if ctaMatches text then score3 + 50 else score3
  if tagName = str "INPUT" ∨ tagName = str "SELECT" ∨ tagName = str "TEXTAREA"
  then score4 + 10 else score4

def scoreElementClaimed (selector text tagName ty : List Char) : Nat :=
  (if containsChars (str ".btn-primary") selector
      || containsChars (str "btn-primary") selector
   then 100 else 0)
  + (if tagName = str "INPUT" ∧ ty = str "submit" then 90 else 0)
  + (if tagName = str "BUTTON" ∨ tagName = str "A" then 20 else 0)
  + (if ctaMatches text then 50 else 0)
  + (if tagName = str "INPUT" ∨ tagName = str "SELECT" ∨ tagName = str "TEXTAREA"
     then 10 else 0)

def scoreElementAmended (selector text tagName ty : List Char) : Nat :=
  (if containsChars (str ".btn-primary") selector
      || containsChars (str "btn-primary") selector
   then 100 else 0)
  + (if ty = str "submit" then 90 else 0)
  + (if tagName = str "BUTTON" ∨ tagName = str "A" then 20 else 0)
  + (if ctaMatches text then 50 else 0)
  + (if tagName = str "INPUT" ∨ tagName = str "SELECT" ∨ tagName = str "TEXTAREA"
     then 10 else 0)

inductive ArrowDirection where
  | bottomRight
  | bottomLeft
  | topRight
  | topLeft
deriving DecidableEq

def pickArrowDirection (box : ArrowTarget) (viewportWidth viewportHeight : ℚ) :
    ArrowDirection :=
  let inRightHalf : Bool := decide (box.x + box.width / 2 > viewportWidth * (3 / 5))
  let inBottomHalf : Bool := decide (box.y + box.height / 2 > viewportHeight * (3 / 5))
  if inRightHalf && inBottomHalf then ArrowDirection.topLeft
  else if inRightHalf then ArrowDirection.bottomLeft
  else if inBottomHalf then ArrowDirection.topRight
  else ArrowDirection.bottomRight

def quadrantDirectionClaimed (box : ArrowTarget) (viewportWidth viewportHeight : ℚ) :
    ArrowDirection :=
  let centerX := box.x + box.width / 2
  let centerY := box.y + box.height / 2
  if centerX > viewportWidth / 2 ∧ centerY > viewportHeight / 2 then
    ArrowDirection.topLeft
  else if centerX > viewportWidth / 2 then ArrowDirection.bottomLeft
  else if centerY > viewportHeight / 2 then ArrowDirection.topRight
  else ArrowDirection.bottomRight

def regionDirectionAmended (box : ArrowTarget) (viewportWidth viewportHeight : ℚ) :
    ArrowDirection :=
  let centerX := box.x + box.width / 2
  let centerY := box.y + box.height / 2
  if centerX > viewportWidth * (3 / 5) ∧ centerY > viewportHeight * (3 / 5) then
    ArrowDirection.topLeft
  else if centerX > viewportWidth * (3 / 5) then ArrowDirection.bottomLeft
  else if centerY > viewportHeight * (3 / 5) then ArrowDirection.topRight
  else ArrowDirection.bottomRight

inductive MarkerType where
  | screenshot
  | gif
deriving DecidableEq

structure ScreenshotMarker where
  type : MarkerType
  description : List Char
  path : Option (List Char) := none
  steps : Option (List (List Char)) := none
  highlights : Option (List (List Char)) := none
  maxArrows : Option Int := none
  sourceFile : List Char
  lineNumber : Nat
deriving DecidableEq

def isSlugChar (c : Char) : Bool :=
  ('a' ≤ c && c ≤ 'z') || ('0' ≤ c && c ≤ '9')

def collapseNonSlug : List Char → List Char
  | [] => []
  | c :: cs =>
    if isSlugChar c then c :: collapseNonSlug cs
    else '-' :: collapseNonSlug (cs.dropWhile (fun d => !isSlugChar d))
termination_by l => l.length
decreasing_by
  · simp only [List.length_cons]
    exact Nat.lt_succ_self _
  · simp only [List.length_cons]
    exact Nat.lt_succ_of_le (List.dropWhile_sublist _).length_le

def dropEdgeDashes (l : List Char) : List Char :=
  let l1 := match l with
    | '-' :: rest => rest
    | other => other
  match l1.reverse with
  | '-' :: rest => rest.reverse
  | _ => l1

def slugify (description : List Char) : List Char :=
  (dropEdgeDashes (collapseNonSlug (lowerChars description))).take 50

def featureArea (sourceFile : List Char) : List Char :=
  let parts := splitChar '/' sourceFile
  if 2 ≤ parts.length then
    let p := parts.getD (parts.length - 2) []
    if p = [] then str "general" else p
  else str "general"

def generateFilename (marker : ScreenshotMarker) : List Char :=
  let slug := slugify marker.description
  let ext := match marker.type with
    | MarkerType.gif => str "gif"
    | MarkerType.screenshot => str "png"
  featureArea marker.sourceFile ++ str "/" ++ slug ++ str "." ++ ext

structure CaptureResult where
  description : List Char
  output : List Char
  success : Bool
  expectedHighlights : Nat
  actualHighlights : Nat
  sourceFile : List Char
  lineNumber : Nat
deriving DecidableEq

def missingHighlights (results : List CaptureResult) : List CaptureResult :=
  results.filter (fun r =>
    r.success && decide (0 < r.expectedHighlights) && decide (r.actualHighlights = 0))

def mainExitCode (results : List CaptureResult) (strictFlag ciMode : Bool) : Nat :=
  if (strictFlag || ciMode) && decide (0 < (missingHighlights results).length)
  then 1 else 0

inductive CaptureOutcome where
  | success (outputPath : List Char) (actualHighlights : Nat)
  | failure
deriving DecidableEq

def markerResult (m : ScreenshotMarker) (o : CaptureOutcome) : CaptureResult :=
  match o with
  | CaptureOutcome.success out hl =>
    { description := m.description, output := out, success := true,
      expectedHighlights := (m.highlights.getD []).length, actualHighlights := hl,
      sourceFile := m.sourceFile, lineNumber := m.lineNumber }
  | CaptureOutcome.failure =>
    { description := m.description, output := [], success := false,
      expectedHighlights := (m.highlights.getD []).length, actualHighlights := 0,
      sourceFile := m.sourceFile, lineNumber := m.lineNumber }

def processMarkers (capture : ScreenshotMarker → CaptureOutcome) :
    List ScreenshotMarker → List CaptureResult
  | [] => []
  | m :: rest => markerResult m (capture m) :: processMarkers capture rest

def defaultCaptureResult : CaptureResult :=
  { description := [], output := [], success := false, expectedHighlights := 0,
    actualHighlights := 0, sourceFile := [], lineNumber := 0 }

def hasRef : List (List Char) → Bool
  | [] => false
  | l :: rest =>
    let t := trimChars l
    if startsWithChars (str "![") t then true
    else if t.isEmpty then hasRef rest
    else false

def addImageRefToMarkdown (content : List Char) (lineNumber : Nat)
    (imagePath description : List Char) : List Char × Bool :=
  let lines := splitChar '\n' content
  let markerLineIndex := lineNumber - 1
  if hasRef ((lines.drop (markerLineIndex + 1)).take 3) then (content, false)
  else
    let imageRef := '\n' ::
      (str "![" ++ description ++ str "](" ++ imagePath ++ str ")")
    (joinWith '\n' (insertAt (markerLineIndex + 1) imageRef lines), true)

def isImageRefLine (l : List Char) : Bool :=
  startsWithChars (str "![") (trimChars l)

def countImageRefLines (content : List Char) : Nat :=
  ((splitChar '\n' content).filter isImageRefLine).length

/-! ## Helper lemmas and claim theorems -/

theorem filterLoop_selected_extends (m : Int) :
    ∀ (l : List ArrowTarget) (sel : List ArrowTarget) (sk : List (List Char)),
      ∃ tail, (filterLoop m l sel sk).selected = sel ++ tail := by
  intro l
  induction l with
  | nil => intro sel sk; exact ⟨[], by simp [filterLoop]⟩
  | cons t rest ih =>
    intro sel sk
    rw [filterLoop]
    by_cases h1 : m ≤ (sel.length : Int)
    · simpa [h1] using ih sel (sk ++ [t.selector])
    · by_cases h2 : sel.any (fun s => isInProximity s t)
      · simpa [h1, h2] using ih sel (sk ++ [t.selector])
      · obtain ⟨tail, htail⟩ := ih (sel ++ [t]) sk
        exact ⟨t :: tail, by simpa [h1, h2] using htail⟩

theorem filterLoop_selected_length_le (m : Int) :
    ∀ (l : List ArrowTarget) (sel : List ArrowTarget) (sk : List (List Char)),
      ((filterLoop m l sel sk).selected.length : Int) ≤ m ⊔ (sel.length : Int) := by
  intro l
  induction l with
  | nil => intro sel sk; simp [filterLoop]
  | cons t rest ih =>
    intro sel sk
    rw [filterLoop]
    by_cases h1 : m ≤ (sel.length : Int)
    · simpa [h1] using ih sel (sk ++ [t.selector])
    · by_cases h2 : sel.any (fun s => isInProximity s t)
      · simpa [h1, h2] using ih sel (sk ++ [t.selector])
      · have hlt : (sel.length : Int) < m := lt_of_not_le h1
        have h3 := ih (sel ++ [t]) sk
        have h4 : m ⊔ (((sel ++ [t]).length : Int)) ≤ m ⊔ (sel.length : Int) := by
          simp only [List.length_append, List.length_singleton, Nat.cast_add, Nat.cast_one]
          exact sup_le le_sup_left (le_trans (by omega) le_sup_left)
        simpa [h1, h2] using le_trans h3 h4

theorem filterLoop_pairwise (m : Int) :
    ∀ (l : List ArrowTarget) (sel : List ArrowTarget) (sk : List (List Char)),
      sel.Pairwise (fun a b => isInProximity a b = false) →
      (filterLoop m l sel sk).selected.Pairwise (fun a b => isInProximity a b = false) := by
  intro l
  induction l with
  | nil => intro sel sk h; simpa [filterLoop] using h
  | cons t rest ih =>
    intro sel sk h
    rw [filterLoop]
    by_cases h1 : m ≤ (sel.length : Int)
    · simpa [h1] using ih sel (sk ++ [t.selector]) h
    · by_cases h2 : sel.any (fun s => isInProximity s t)
      · simpa [h1, h2] using ih sel (sk ++ [t.selector]) h
      · have hall : ∀ s ∈ sel, isInProximity s t = false := by
          intro s hs
          by_contra hne
          have : sel.any (fun s => isInProximity s t) = true :=
            List.any_eq_true.mpr ⟨s, hs, by simpa using hne⟩
          simp [this] at h2
        have hpair : (sel ++ [t]).Pairwise (fun a b => isInProximity a b = false) := by
          rw [List.pairwise_append]
          exact ⟨h, List.pairwise_singleton _ _, fun a ha b hb => by
            simp only [List.mem_singleton] at hb
            subst hb
            exact hall a ha⟩
        simpa [h1, h2] using ih (sel ++ [t]) sk hpair

theorem sortTargets_length (l : List ArrowTarget) :
    (sortTargets l).length = l.length := by
  have key : ∀ (a : ArrowTarget) (m : List ArrowTarget),
      (insertSorted a m).length = m.length + 1 := by
    intro a m
    induction m with
    | nil => simp [insertSorted]
    | cons b bs ih =>
      rw [insertSorted]
      by_cases hb : targetLE a b
      · simp [hb]
      · simp [hb, ih]
  induction l with
  | nil => rfl
  | cons a l ih =>
    show (insertSorted a (sortTargets l)).length = l.length + 1
    rw [key, ih]

theorem filterLoop_accepts_head (m : Int) (hm : 1 ≤ m) (t : ArrowTarget)
    (rest : List ArrowTarget) :
    ∃ tail, (filterLoop m (t :: rest) [] []).selected = t :: tail := by
  rw [filterLoop]
  have h1 : ¬ (m ≤ ((([] : List ArrowTarget)).length : Int)) := by simp; omega
  have h2 : ([] : List ArrowTarget).any (fun s => isInProximity s t) = false := rfl
  simp only [h1, h2, if_false, ite_false, Bool.false_eq_true, List.nil_append]
  obtain ⟨tail, htail⟩ := filterLoop_selected_extends m rest [t] []
  exact ⟨tail, by simpa using htail⟩

theorem isEmpty_false_of_ne_nil {α : Type _} (l : List α) (h : l ≠ []) :
    l.isEmpty = false := by
  cases l with
  | nil => exact absurd rfl h
  | cons a t => rfl

theorem sortTargets_ne_nil (targets : List ArrowTarget) (hne : targets ≠ []) :
    sortTargets targets ≠ [] := by
  intro h
  apply hne
  have hlen := sortTargets_length targets
  rw [h] at hlen
  exact List.length_eq_zero.mp hlen.symm

theorem filterArrowTargets_false_eq (targets : List ArrowTarget) (maxArrows : Int)
    (hempty : targets.isEmpty = false) :
    filterArrowTargets targets maxArrows false =
      filterLoop maxArrows (sortTargets targets) [] [] := by
  unfold filterArrowTargets
  simp [hempty]

theorem filterArrowTargets_of_selected_ne (targets : List ArrowTarget)
    (maxArrows : Int) (forceMinimum : Bool) (hempty : targets.isEmpty = false)
    (hsel : (filterLoop maxArrows (sortTargets targets) [] []).selected ≠ []) :
    filterArrowTargets targets maxArrows forceMinimum =
      filterLoop maxArrows (sortTargets targets) [] [] := by
  unfold filterArrowTargets
  have h1 : (filterLoop maxArrows (sortTargets targets) [] []).selected.isEmpty = false :=
    isEmpty_false_of_ne_nil _ hsel
  simp [hempty, h1]

theorem filterArrowTargets_of_selected_nil (targets : List ArrowTarget)
    (maxArrows : Int) (hempty : targets.isEmpty = false)
    (top : ArrowTarget) (rest : List ArrowTarget)
    (hs : sortTargets targets = top :: rest)
    (hsel : (filterLoop maxArrows (sortTargets targets) [] []).selected = []) :
    filterArrowTargets targets maxArrows true =
      ⟨[top], (filterLoop maxArrows (sortTargets targets) [] []).skipped.erase
        top.selector⟩ := by
  unfold filterArrowTargets
  rw [hs] at hsel ⊢
  simp [hempty, hsel, List.isEmpty_iff]

theorem c1_selection_size_le_effective_max (targets : List ArrowTarget)
    (maxArrowsOverride : Option Int) (forceMinimum : Bool)
    (hpos : ∀ v, maxArrowsOverride = some v → 0 < v) :
    ((filterArrowTargets targets (effectiveMaxArrows maxArrowsOverride)
        forceMinimum).selected.length : Int)
      ≤ effectiveMaxArrows maxArrowsOverride := by
  have hm : 1 ≤ effectiveMaxArrows maxArrowsOverride := by
    cases maxArrowsOverride with
    | none => simp [effectiveMaxArrows, DEFAULT_MAX_ARROWS]
    | some v =>
      have := hpos v rfl
      simp only [effectiveMaxArrows, Option.getD_some]
      omega
  set m := effectiveMaxArrows maxArrowsOverride with hmdef
  by_cases hempty : targets = []
  · subst hempty
    unfold filterArrowTargets
    simp
    omega
  · have hemptyf : targets.isEmpty = false := isEmpty_false_of_ne_nil _ hempty
    have hbound : ((filterLoop m (sortTargets targets) [] []).selected.length : Int) ≤ m := by
      have h := filterLoop_selected_length_le m (sortTargets targets) [] []
      have h0 : m ⊔ ((List.length ([] : List ArrowTarget) : Int)) = m := by
        simp only [List.length_nil, Nat.cast_zero]
        exact sup_eq_left.mpr (by omega)
      rwa [h0] at h
    cases hsel : (filterLoop m (sortTargets targets) [] []).selected with
    | nil =>
      cases forceMinimum with
      | false =>
        rw [filterArrowTargets_false_eq _ _ hemptyf, hsel]
        simp
        omega
      | true =>
        obtain ⟨top, rest, hs⟩ := List.exists_cons_of_ne_nil (sortTargets_ne_nil _ hempty)
        rw [filterArrowTargets_of_selected_nil _ _ hemptyf top rest hs hsel]
        simp
        omega
    | cons a as =>
      rw [filterArrowTargets_of_selected_ne _ _ _ hemptyf
        (by rw [hsel]; exact List.cons_ne_nil a as)]
      exact hbound

theorem c1_witness :
    (∀ v, (some 2 : Option Int) = some v → 0 < v) ∧
    ((filterArrowTargets
        [⟨0, 0, 10, 10, str ".btn-primary", 100, []⟩,
         ⟨500, 500, 10, 10, str ".btn", 20, []⟩]
        (effectiveMaxArrows (some 2)) true).selected.length : Int)
      ≤ effectiveMaxArrows (some 2) :=
  ⟨fun v h => by cases h; omega,
   c1_selection_size_le_effective_max _ _ true (fun v h => by cases h; omega)⟩

theorem c2_selection_nonempty (targets : List ArrowTarget) (maxArrows : Int)
    (hne : targets ≠ []) (hm : 1 ≤ maxArrows) :
    (filterArrowTargets targets maxArrows true).selected ≠ [] := by
  have hemptyf : targets.isEmpty = false := isEmpty_false_of_ne_nil _ hne
  cases hsel : (filterLoop maxArrows (sortTargets targets) [] []).selected with
  | nil =>
    obtain ⟨top, rest, hs⟩ := List.exists_cons_of_ne_nil (sortTargets_ne_nil _ hne)
    rw [filterArrowTargets_of_selected_nil _ _ hemptyf top rest hs hsel]
    exact List.cons_ne_nil top []
  | cons a as =>
    rw [filterArrowTargets_of_selected_ne _ _ _ hemptyf
      (by rw [hsel]; exact List.cons_ne_nil a as), hsel]
    exact List.cons_ne_nil a as

theorem c2_witness :
    ([(⟨0, 0, 10, 10, str ".btn", 20, []⟩ : ArrowTarget)] ≠ []) ∧ ((1 : Int) ≤ 1) ∧
    (filterArrowTargets [⟨0, 0, 10, 10, str ".btn", 20, []⟩] 1 true).selected ≠ [] :=
  ⟨by simp, by omega, c2_selection_nonempty _ 1 (by simp) (by omega)⟩

theorem c3_selected_pairwise_not_in_proximity (targets : List ArrowTarget)
    (maxArrows : Int) (forceMinimum : Bool) :
    (filterArrowTargets targets maxArrows forceMinimum).selected.Pairwise
      (fun a b => isInProximity a b = false) := by
  by_cases hempty : targets = []
  · subst hempty
    unfold filterArrowTargets
    simp
  · have hemptyf : targets.isEmpty = false := isEmpty_false_of_ne_nil _ hempty
    have hp := filterLoop_pairwise maxArrows (sortTargets targets) [] [] List.Pairwise.nil
    cases hsel : (filterLoop maxArrows (sortTargets targets) [] []).selected with
    | nil =>
      cases forceMinimum with
      | false =>
        rw [filterArrowTargets_false_eq _ _ hemptyf, hsel]
        exact List.Pairwise.nil
      | true =>
        obtain ⟨top, rest, hs⟩ := List.exists_cons_of_ne_nil (sortTargets_ne_nil _ hempty)
        rw [filterArrowTargets_of_selected_nil _ _ hemptyf top rest hs hsel]
        exact List.pairwise_singleton _ _
    | cons a as =>
      rw [filterArrowTargets_of_selected_ne _ _ _ hemptyf
        (by rw [hsel]; exact List.cons_ne_nil a as)]
      exact hp

theorem c10_force_minimum_unreachable (targets : List ArrowTarget)
    (maxArrows : Int) (hne : targets ≠ []) :
    (1 ≤ maxArrows →
       (∃ t rest tail, sortTargets targets = t :: rest ∧
          (filterLoop maxArrows (sortTargets targets) [] []).selected = t :: tail) ∧
       ∀ forceMinimum, filterArrowTargets targets maxArrows forceMinimum =
         filterArrowTargets targets maxArrows false) ∧
    ((filterLoop maxArrows (sortTargets targets) [] []).selected = [] →
       maxArrows ≤ 0) := by
  have hemptyf : targets.isEmpty = false := isEmpty_false_of_ne_nil _ hne
  obtain ⟨t, rest, hts⟩ := List.exists_cons_of_ne_nil (sortTargets_ne_nil _ hne)
  constructor
  · intro hm
    obtain ⟨tail, htail⟩ := filterLoop_accepts_head maxArrows hm t rest
    have hsel : (filterLoop maxArrows (sortTargets targets) [] []).selected = t :: tail := by
      rw [hts]; exact htail
    refine ⟨⟨t, rest, tail, hts, hsel⟩, ?_⟩
    intro force
    rw [filterArrowTargets_of_selected_ne _ _ _ hemptyf
      (by rw [hsel]; exact List.cons_ne_nil t tail)]
    rw [filterArrowTargets_false_eq _ _ hemptyf]
  · intro hnil
    by_contra hpos
    have hm : 1 ≤ maxArrows := by omega
    obtain ⟨tail, htail⟩ := filterLoop_accepts_head maxArrows hm t rest
    rw [hts, htail] at hnil
    exact List.cons_ne_nil t tail hnil

theorem c10_witness :
    (filterArrowTargets [⟨0, 0, 10, 10, str "#a", 5, []⟩] 1 true =
       filterArrowTargets [⟨0, 0, 10, 10, str "#a", 5, []⟩] 1 false) ∧
    ((0 : Int) ≤ 0) :=
  ⟨((c10_force_minimum_unreachable [⟨0, 0, 10, 10, str "#a", 5, []⟩] 1
      (by simp)).1 (by omega)).2 true,
   (c10_force_minimum_unreachable [⟨0, 0, 10, 10, str "#a", 5, []⟩] 0
      (by simp)).2 (by decide)⟩

theorem c6_submit_bonus_counterexample :
    scoreElement [] [] (str "DIV") (str "submit") = 90 ∧
    scoreElementClaimed [] [] (str "DIV") (str "submit") = 0 ∧
    scoreElement [] [] (str "DIV") (str "submit") ≠
      scoreElementClaimed [] [] (str "DIV") (str "submit") := by
  refine ⟨by decide, by decide, by decide⟩

theorem c6_score_is_additive_sum (selector text tagName ty : List Char) :
    scoreElement selector text tagName ty =
      scoreElementAmended selector text tagName ty := by
  unfold scoreElement scoreElementAmended
  split_ifs <;> rfl

theorem c7_quadrant_counterexample :
    pickArrowDirection ⟨760, 490, 20, 10, [], 0, []⟩ 1400 900 =
      ArrowDirection.bottomRight ∧
    quadrantDirectionClaimed ⟨760, 490, 20, 10, [], 0, []⟩ 1400 900 =
      ArrowDirection.topLeft ∧
    pickArrowDirection ⟨760, 490, 20, 10, [], 0, []⟩ 1400 900 ≠
      quadrantDirectionClaimed ⟨760, 490, 20, 10, [], 0, []⟩ 1400 900 := by
  have ha : pickArrowDirection ⟨760, 490, 20, 10, [], 0, []⟩ 1400 900 =
      ArrowDirection.bottomRight := by
    unfold pickArrowDirection
    norm_num
  have hb : quadrantDirectionClaimed ⟨760, 490, 20, 10, [], 0, []⟩ 1400 900 =
      ArrowDirection.topLeft := by
    unfold quadrantDirectionClaimed
    norm_num
  refine ⟨ha, hb, ?_⟩
  rw [ha, hb]
  intro h
  exact absurd h (by simp)

theorem c7_direction_by_region (box : ArrowTarget) (viewportWidth viewportHeight : ℚ) :
    pickArrowDirection box viewportWidth viewportHeight =
      regionDirectionAmended box viewportWidth viewportHeight := by
  unfold pickArrowDirection regionDirectionAmended
  by_cases h1 : box.x + box.width / 2 > viewportWidth * (3 / 5) <;>
    by_cases h2 : box.y + box.height / 2 > viewportHeight * (3 / 5) <;>
    simp [h1, h2]

theorem c5_filename_pure_function (m1 m2 : ScreenshotMarker)
    (hdesc : m1.description = m2.description)
    (hgroup : featureArea m1.sourceFile = featureArea m2.sourceFile)
    (hkind : m1.type = m2.type) :
    generateFilename m1 = generateFilename m2 := by
  unfold generateFilename
  rw [hdesc, hgroup, hkind]

theorem c5_witness :
    generateFilename
      { type := MarkerType.screenshot, description := str "New quote form",
        path := some (str "/quotes/new"), highlights := some [str ".btn-primary"],
        maxArrows := some 5, sourceFile := str "docs/quotes/creating.md",
        lineNumber := 12 } =
    generateFilename
      { type := MarkerType.screenshot, description := str "New quote form",
        sourceFile := str "guides/quotes/editing.md", lineNumber := 90 } :=
  c5_filename_pure_function _ _ rfl (by decide) rfl

theorem c8_strict_mode_exit (results : List CaptureResult)
    (strictFlag ciMode : Bool) :
    ((strictFlag || ciMode) = true →
       ∀ r ∈ results, r.success = true → 0 < r.expectedHighlights →
         r.actualHighlights = 0 →
         r ∈ missingHighlights results ∧ mainExitCode results strictFlag ciMode = 1) ∧
    mainExitCode results false false = 0 := by
  constructor
  · intro hstrict r hr hsucc hexp hact
    have hmem : r ∈ missingHighlights results := by
      unfold missingHighlights
      rw [List.mem_filter]
      exact ⟨hr, by simp [hsucc, hexp, hact]⟩
    refine ⟨hmem, ?_⟩
    unfold mainExitCode
    have hlen : 0 < (missingHighlights results).length :=
      List.length_pos.mpr (fun h => by rw [h] at hmem; exact absurd hmem (List.not_mem_nil r))
    simp [hstrict, hlen]
  · unfold mainExitCode
    simp

theorem c8_witness :
    ((true || false) = true) ∧
    ((⟨str "New quote form", str "img.png", true, 2, 0, str "docs/x.md", 3⟩ :
        CaptureResult) ∈
      missingHighlights [⟨str "New quote form", str "img.png", true, 2, 0,
        str "docs/x.md", 3⟩] ∧
     mainExitCode [⟨str "New quote form", str "img.png", true, 2, 0,
        str "docs/x.md", 3⟩] true false = 1) ∧
    mainExitCode [⟨str "New quote form", str "img.png", true, 2, 0,
        str "docs/x.md", 3⟩] false false = 0 :=
  ⟨rfl,
   (c8_strict_mode_exit [⟨str "New quote form", str "img.png", true, 2, 0,
      str "docs/x.md", 3⟩] true false).1 rfl _ (List.mem_singleton.mpr rfl)
     rfl (by decide) rfl,
   (c8_strict_mode_exit [⟨str "New quote form", str "img.png", true, 2, 0,
      str "docs/x.md", 3⟩] true false).2⟩

theorem processMarkers_length (capture : ScreenshotMarker → CaptureOutcome)
    (markers : List ScreenshotMarker) :
    (processMarkers capture markers).length = markers.length := by
  induction markers with
  | nil => rfl
  | cons m rest ih => simp [processMarkers, ih]

theorem processMarkers_getD (capture : ScreenshotMarker → CaptureOutcome) :
    ∀ (markers : List ScreenshotMarker) (k : Nat), k < markers.length →
      (processMarkers capture markers).getD k defaultCaptureResult =
        markerResult (markers.getD k ⟨MarkerType.screenshot, [], none, none,
          none, none, [], 0⟩)
          (capture (markers.getD k ⟨MarkerType.screenshot, [], none, none,
            none, none, [], 0⟩)) := by
  intro markers
  induction markers with
  | nil => intro k hk; exact absurd hk (by simp)
  | cons m rest ih =>
    intro k hk
    cases k with
    | zero => rfl
    | succ k =>
      have hk2 : k < rest.length := by simpa using hk
      simpa [processMarkers, List.getD] using ih k hk2

theorem c9_directive_isolation (capture : ScreenshotMarker → CaptureOutcome)
    (markers : List ScreenshotMarker) (i j : Nat)
    (hi : i < markers.length) (hj : j < markers.length) (hij : i < j)
    (out : List Char) (hl : Nat)
    (hfail : capture (markers.getD i ⟨MarkerType.screenshot, [], none, none,
      none, none, [], 0⟩) = CaptureOutcome.failure)
    (hok : capture (markers.getD j ⟨MarkerType.screenshot, [], none, none,
      none, none, [], 0⟩) = CaptureOutcome.success out hl)
    (hsingle : (markers.getD j ⟨MarkerType.screenshot, [], none, none,
      none, none, [], 0⟩).type = MarkerType.screenshot) :
    (processMarkers capture markers).length = markers.length ∧
    ((processMarkers capture markers).getD i defaultCaptureResult).success = false ∧
    ((processMarkers capture markers).getD j defaultCaptureResult).success = true ∧
    ((processMarkers capture markers).getD j defaultCaptureResult).output = out ∧
    ((processMarkers capture markers).getD j defaultCaptureResult).actualHighlights = hl ∧
    ((processMarkers capture markers).getD j defaultCaptureResult).description =
      (markers.getD j ⟨MarkerType.screenshot, [], none, none, none, none,
        [], 0⟩).description := by
  refine ⟨processMarkers_length capture markers, ?_, ?_, ?_, ?_, ?_⟩ <;>
    rw [processMarkers_getD capture markers _ (by omega)]
  · rw [hfail]
    rfl
  · rw [hok]
    rfl
  · rw [hok]
    rfl
  · rw [hok]
    rfl
  · rw [hok]
    rfl

theorem c9_witness :
    (processMarkers
      (fun m => if m.lineNumber = 1 then CaptureOutcome.failure
                else CaptureOutcome.success (str "docs/assets/images/quotes/new-quote.png") 0)
      [⟨MarkerType.gif, str "quote flow", none,
          some [str "/quotes", str "/quotes/new"], none, none, str "docs/quotes/a.md", 1⟩,
       ⟨MarkerType.screenshot, str "New quote form", some (str "/quotes/new"),
          none, none, none, str "docs/quotes/a.md", 9⟩]).length = 2 ∧
    ((processMarkers
      (fun m => if m.lineNumber = 1 then CaptureOutcome.failure
                else CaptureOutcome.success (str "docs/assets/images/quotes/new-quote.png") 0)
      [⟨MarkerType.gif, str "quote flow", none,
          some [str "/quotes", str "/quotes/new"], none, none, str "docs/quotes/a.md", 1⟩,
       ⟨MarkerType.screenshot, str "New quote form", some (str "/quotes/new"),
          none, none, none, str "docs/quotes/a.md", 9⟩]).getD 0
        defaultCaptureResult).success = false ∧
    ((processMarkers
      (fun m => if m.lineNumber = 1 then CaptureOutcome.failure
                else CaptureOutcome.success (str "docs/assets/images/quotes/new-quote.png") 0)
      [⟨MarkerType.gif, str "quote flow", none,
          some [str "/quotes", str "/quotes/new"], none, none, str "docs/quotes/a.md", 1⟩,
       ⟨MarkerType.screenshot, str "New quote form", some (str "/quotes/new"),
          none, none, none, str "docs/quotes/a.md", 9⟩]).getD 1
        defaultCaptureResult).success = true := by
  have h := c9_directive_isolation
    (fun m => if m.lineNumber = 1 then CaptureOutcome.failure
              else CaptureOutcome.success (str "docs/assets/images/quotes/new-quote.png") 0)
    [⟨MarkerType.gif, str "quote flow", none,
        some [str "/quotes", str "/quotes/new"], none, none, str "docs/quotes/a.md", 1⟩,
     ⟨MarkerType.screenshot, str "New quote form", some (str "/quotes/new"),
        none, none, none, str "docs/quotes/a.md", 9⟩]
    0 1 (by decide) (by decide) (by decide)
    (str "docs/assets/images/quotes/new-quote.png") 0
    rfl rfl rfl
  exact ⟨h.1, h.2.1, h.2.2.1⟩

theorem splitChar_ne_nil (sep : Char) (l : List Char) : splitChar sep l ≠ [] := by
  cases l with
  | nil => simp [splitChar]
  | cons c cs => by_cases h : c = sep <;> simp [splitChar, h]

theorem sep_not_mem_splitChar (sep : Char) (l : List Char) :
    ∀ p ∈ splitChar sep l, sep ∉ p := by
  induction l with
  | nil =>
    intro p hp
    simp [splitChar] at hp
    subst hp
    simp
  | cons c cs ih =>
    intro p hp
    by_cases h : c = sep
    · simp only [splitChar, if_pos h] at hp
      rcases List.mem_cons.mp hp with hp | hp
      · subst hp; simp
      · exact ih p hp
    · simp only [splitChar, if_neg h] at hp
      rcases List.mem_cons.mp hp with hp | hp
      · subst hp
        intro hmem
        rcases List.mem_cons.mp hmem with hc | hc
        · exact h hc.symm
        · cases hrest : splitChar sep cs with
          | nil => rw [hrest] at hc; simp at hc
          | cons q qs =>
            rw [hrest] at hc
            simp only [List.headD_cons] at hc
            exact ih q (by rw [hrest]; exact List.mem_cons_self q qs) hc
      · cases hrest : splitChar sep cs with
        | nil => rw [hrest] at hp; simp at hp
        | cons q qs =>
          rw [hrest] at hp
          simp only [List.tail_cons] at hp
          exact ih p (by rw [hrest]; exact List.mem_cons_of_mem q hp)

theorem splitChar_of_not_mem (sep : Char) (x : List Char) (hx : sep ∉ x) :
    splitChar sep x = [x] := by
  induction x with
  | nil => rfl
  | cons c cs ih =>
    have hc : c ≠ sep := fun h => hx (by rw [h]; exact List.mem_cons_self _ _)
    have hcs : sep ∉ cs := fun h => hx (List.mem_cons_of_mem _ h)
    simp [splitChar, hc, ih hcs]

theorem splitChar_append_sep (sep : Char) (x : List Char) (hx : sep ∉ x) :
    ∀ rest, splitChar sep (x ++ sep :: rest) = x :: splitChar sep rest := by
  induction x with
  | nil => intro rest; simp [splitChar]
  | cons c cs ih =>
    intro rest
    have hc : c ≠ sep := fun h => hx (by rw [h]; exact List.mem_cons_self _ _)
    have hcs : sep ∉ cs := fun h => hx (List.mem_cons_of_mem _ h)
    simp [splitChar, hc, ih hcs rest, splitChar_ne_nil]

theorem joinWith_cons (sep : Char) (l : List Char) (rest : List (List Char))
    (h : rest ≠ []) : joinWith sep (l :: rest) = l ++ sep :: joinWith sep rest := by
  cases rest with
  | nil => exact absurd rfl h
  | cons r rs => rfl

theorem joinWith_append (sep : Char) (B : List (List Char)) (hB : B ≠ []) :
    ∀ (a : List Char) (ta : List (List Char)),
      joinWith sep ((a :: ta) ++ B) =
        joinWith sep (a :: ta) ++ sep :: joinWith sep B := by
  intro a ta
  induction ta generalizing a with
  | nil => simp [joinWith_cons sep a B hB, joinWith]
  | cons a2 ta2 ih =>
    show a ++ sep :: joinWith sep ((a2 :: ta2) ++ B) =
      (a ++ sep :: joinWith sep (a2 :: ta2)) ++ sep :: joinWith sep B
    rw [ih a2]
    simp [List.append_assoc]

theorem splitChar_joinWith (sep : Char) :
    ∀ (L : List (List Char)), L ≠ [] → (∀ p ∈ L, sep ∉ p) →
      splitChar sep (joinWith sep L) = L := by
  intro L
  induction L with
  | nil => intro h; exact absurd rfl h
  | cons l ls ih =>
    intro _ hfree
    cases ls with
    | nil => exact splitChar_of_not_mem sep l (hfree l (List.mem_cons_self _ _))
    | cons l2 ls2 =>
      show splitChar sep (l ++ sep :: joinWith sep (l2 :: ls2)) = l :: l2 :: ls2
      rw [splitChar_append_sep sep l (hfree l (List.mem_cons_self _ _)),
        ih (List.cons_ne_nil _ _) (fun p hp => hfree p (List.mem_cons_of_mem _ hp))]

theorem dropWhile_ws_append_ends (ys : List Char) :
    ∃ u, (ys ++ ['[', '!']).dropWhile (·.isWhitespace) = u ++ ['[', '!'] := by
  induction ys with
  | nil =>
    refine ⟨[], ?_⟩
    rw [List.nil_append, List.dropWhile_cons_of_neg (by decide)]
  | cons y ys2 ih =>
    by_cases hy : y.isWhitespace
    · obtain ⟨u, hu⟩ := ih
      exact ⟨u, by rw [List.cons_append, List.dropWhile_cons_of_pos (by simpa using hy), hu]⟩
    · exact ⟨y :: ys2, by rw [List.cons_append, List.dropWhile_cons_of_neg (by simpa using hy)]⟩

theorem trimChars_bang_bracket (xs : List Char) :
    ∃ t, trimChars ('!' :: '[' :: xs) = '!' :: '[' :: t := by
  unfold trimChars
  rw [List.dropWhile_cons_of_neg (by decide)]
  have h2 : ('!' :: '[' :: xs).reverse = xs.reverse ++ ['[', '!'] := by simp
  rw [h2]
  obtain ⟨u, hu⟩ := dropWhile_ws_append_ends xs.reverse
  rw [hu]
  exact ⟨u.reverse, by simp⟩

theorem hasRef_blank_then_ref (xs : List Char) (rest : List (List Char)) :
    hasRef ([] :: ('!' :: '[' :: xs) :: rest) = true := by
  have hstep : hasRef ([] :: ('!' :: '[' :: xs) :: rest) =
      hasRef (('!' :: '[' :: xs) :: rest) := rfl
  rw [hstep]
  obtain ⟨t, ht⟩ := trimChars_bang_bracket xs
  have h2 : startsWithChars (str "![") (trimChars ('!' :: '[' :: xs)) = true := by
    rw [ht]; rfl
  simp only [hasRef, h2, if_true, ite_true]

theorem joinWith_append_of_ne (sep : Char) (A B : List (List Char))
    (hA : A ≠ []) (hB : B ≠ []) :
    joinWith sep (A ++ B) = joinWith sep A ++ sep :: joinWith sep B := by
  cases A with
  | nil => exact absurd rfl hA
  | cons a ta => exact joinWith_append sep B hB a ta

theorem c4_patcher_idempotent (content : List Char) (lineNumber : Nat)
    (imagePath description : List Char)
    (h1 : 1 ≤ lineNumber) (h2 : lineNumber ≤ (splitChar '\n' content).length)
    (hdnl : '\n' ∉ description) (hpnl : '\n' ∉ imagePath) :
    addImageRefToMarkdown
        (addImageRefToMarkdown content lineNumber imagePath description).1
        lineNumber imagePath description
      = ((addImageRefToMarkdown content lineNumber imagePath description).1, false) ∧
    countImageRefLines
        (addImageRefToMarkdown content lineNumber imagePath description).1
      ≤ countImageRefLines content + 1 := by
  have hplus : lineNumber - 1 + 1 = lineNumber := by omega
  by_cases hscan :
      hasRef ((((splitChar '\n' content).drop lineNumber).take 3)) = true
  · have hfirst : addImageRefToMarkdown content lineNumber imagePath description
        = (content, false) := by
      simp only [addImageRefToMarkdown, hplus, hscan, if_true, ite_true]
    rw [hfirst]
    exact ⟨hfirst, Nat.le_succ _⟩
  · have hscanf : hasRef ((((splitChar '\n' content).drop lineNumber).take 3))
        = false := by
      simpa using hscan
    have hshape : str "![" ++ description ++ str "](" ++ imagePath ++ str ")"
        = '!' :: '[' :: (description ++ str "](" ++ imagePath ++ str ")") := rfl
    have hreffree :
        '\n' ∉ str "![" ++ description ++ str "](" ++ imagePath ++ str ")" := by
      intro hmem
      simp only [List.append_assoc, List.mem_append] at hmem
      rcases hmem with hmem | hmem
      · revert hmem; decide
      · rcases hmem with hmem | hmem
        · exact hdnl hmem
        · rcases hmem with hmem | hmem
          · revert hmem; decide
          · rcases hmem with hmem | hmem
            · exact hpnl hmem
            · revert hmem; decide
    have hfirst : addImageRefToMarkdown content lineNumber imagePath description
        = (joinWith '\n' (insertAt lineNumber
            ('\n' :: (str "![" ++ description ++ str "](" ++ imagePath ++ str ")"))
            (splitChar '\n' content)), true) := by
      simp only [addImageRefToMarkdown, hplus, hscanf, Bool.false_eq_true, if_false,
        ite_false]
    have hA : ((splitChar '\n' content).take lineNumber).length = lineNumber := by
      rw [List.length_take]
      omega
    have hAne : (splitChar '\n' content).take lineNumber ≠ [] := by
      intro h
      rw [h] at hA
      simp at hA
      omega
    have hfree : ∀ q ∈ splitChar '\n' content, '\n' ∉ q :=
      fun q hq => sep_not_mem_splitChar '\n' content q hq
    have htail : ∀ D : List (List Char),
        joinWith '\n' (('\n' :: (str "![" ++ description ++ str "](" ++ imagePath
            ++ str ")")) :: D) =
          joinWith '\n' (([] : List Char) :: (str "![" ++ description ++ str "]("
            ++ imagePath ++ str ")") :: D) := by
      intro D
      cases D with
      | nil => rfl
      | cons d ds => rfl
    have hjoin : joinWith '\n' (insertAt lineNumber
          ('\n' :: (str "![" ++ description ++ str "](" ++ imagePath ++ str ")"))
          (splitChar '\n' content))
        = joinWith '\n' ((splitChar '\n' content).take lineNumber ++
            ([] : List Char) :: (str "![" ++ description ++ str "](" ++ imagePath
              ++ str ")") :: (splitChar '\n' content).drop lineNumber) := by
      unfold insertAt
      rw [joinWith_append_of_ne '\n' _ _ hAne (List.cons_ne_nil _ _),
          joinWith_append_of_ne '\n' _ _ hAne (List.cons_ne_nil _ _), htail]
    have hsplit2 : splitChar '\n'
          (joinWith '\n' (insertAt lineNumber
            ('\n' :: (str "![" ++ description ++ str "](" ++ imagePath ++ str ")"))
            (splitChar '\n' content)))
        = (splitChar '\n' content).take lineNumber ++
            ([] : List Char) :: (str "![" ++ description ++ str "](" ++ imagePath
              ++ str ")") :: (splitChar '\n' content).drop lineNumber := by
      rw [hjoin]
      apply splitChar_joinWith
      · simp
      · intro q hq
        rcases List.mem_append.mp hq with hq | hq
        · exact hfree q (List.take_subset _ _ hq)
        · rcases List.mem_cons.mp hq with hq | hq
          · subst hq; simp
          · rcases List.mem_cons.mp hq with hq | hq
            · subst hq; exact hreffree
            · exact hfree q (List.drop_subset _ _ hq)
    have hdrop : ((splitChar '\n' content).take lineNumber ++
          ([] : List Char) :: (str "![" ++ description ++ str "](" ++ imagePath
            ++ str ")") :: (splitChar '\n' content).drop lineNumber).drop lineNumber
        = ([] : List Char) :: (str "![" ++ description ++ str "](" ++ imagePath
            ++ str ")") :: (splitChar '\n' content).drop lineNumber :=
      List.drop_left' hA
    have hwin : hasRef ((((splitChar '\n' content).take lineNumber ++
          ([] : List Char) :: (str "![" ++ description ++ str "](" ++ imagePath
            ++ str ")") :: (splitChar '\n' content).drop lineNumber).drop
              lineNumber).take 3)
        = true := by
      rw [hdrop]
      exact hasRef_blank_then_ref
        (description ++ str "](" ++ imagePath ++ str ")")
        (((splitChar '\n' content).drop lineNumber).take 1)
    have hsecond : addImageRefToMarkdown
          (joinWith '\n' (insertAt lineNumber
            ('\n' :: (str "![" ++ description ++ str "](" ++ imagePath ++ str ")"))
            (splitChar '\n' content)))
          lineNumber imagePath description
        = (joinWith '\n' (insertAt lineNumber
            ('\n' :: (str "![" ++ description ++ str "](" ++ imagePath ++ str ")"))
            (splitChar '\n' content)), false) := by
      simp only [addImageRefToMarkdown, hplus, hsplit2, hwin, if_true, ite_true]
    constructor
    · rw [hfirst]
      exact hsecond
    · rw [hfirst]
      have href : isImageRefLine
          (str "![" ++ description ++ str "](" ++ imagePath ++ str ")") = true := by
        unfold isImageRefLine
        rw [hshape]
        obtain ⟨t, ht⟩ := trimChars_bang_bracket
          (description ++ str "](" ++ imagePath ++ str ")")
        rw [ht]
        rfl
      have hcount1 : countImageRefLines
            (joinWith '\n' (insertAt lineNumber
              ('\n' :: (str "![" ++ description ++ str "](" ++ imagePath ++ str ")"))
              (splitChar '\n' content)))
          = (((splitChar '\n' content).take lineNumber).filter isImageRefLine).length
            + (((splitChar '\n' content).drop lineNumber).filter
                isImageRefLine).length + 1 := by
        unfold countImageRefLines
        rw [hsplit2, List.filter_append, List.filter_cons, List.filter_cons]
        have hblank : isImageRefLine ([] : List Char) = false := rfl
        rw [hblank, href]
        simp only [Bool.false_eq_true, if_false, ite_false, if_true, ite_true,
          List.length_append, List.length_cons]
        omega
      have hcount0 : countImageRefLines content
          = (((splitChar '\n' content).take lineNumber).filter isImageRefLine).length
            + (((splitChar '\n' content).drop lineNumber).filter
                isImageRefLine).length := by
        unfold countImageRefLines
        conv_lhs => rw [← List.take_append_drop lineNumber (splitChar '\n' content)]
        rw [List.filter_append, List.length_append]
      rw [hcount1, hcount0]

theorem c4_witness :
    addImageRefToMarkdown
        (addImageRefToMarkdown (str "a\nb\nc") 2 (str "img/x.png")
          (str "New quote form")).1
        2 (str "img/x.png") (str "New quote form")
      = ((addImageRefToMarkdown (str "a\nb\nc") 2 (str "img/x.png")
          (str "New quote form")).1, false) ∧
    countImageRefLines
        (addImageRefToMarkdown (str "a\nb\nc") 2 (str "img/x.png")
          (str "New quote form")).1
      ≤ countImageRefLines (str "a\nb\nc") + 1 :=
  c4_patcher_idempotent (str "a\nb\nc") 2 (str "img/x.png") (str "New quote form")
    (by decide) (by decide) (by decide) (by decide)
